import Mathlib

/-!
Verification development for the `analyze-require-default` tool.

The repository contains two historical variants of the analyzer in
`src/index.ts` (a directory-scan variant and an entry-seeded variant), a
linked-list FIFO queue in `src/Queue.ts`, and thin CLI wrappers.  This file
gives a shallow embedding of the data model and the operations those files
implement — the path-resolution pipeline (`resolveFilePath`,
`resolveWithExtension`, `replaceAlias`, `res`, `getFullPath`,
`normalizeFilePath`), the suspicious-module registry
(`suspectModule`, `markSuspiciousModule`, the analyze-time bookkeeping),
the work queue, the `require`-call visitor logic, `safePushToQueue` and
`validate` — and proves or refutes the specified properties.

Node's `path` module and `require.resolve` are external collaborators of the
tool; they are modelled here at their interface (string paths with `/` as the
separator, and an abstract filesystem supplying `readdirSync`,
`require.resolve` and `existsSync` answers).
-/

set_option autoImplicit false

namespace AnalyzeRequireDefault

/-! ## Model of the Node `path` collaborator (separator `/`) -/

/-- Splits a character list on the path separator `/`.  Mirrors
`filePath.split(path.sep)` / the segment view used by `path` functions. -/
def splitSeg : List Char → List (List Char)
  | [] => [[]]
  | c :: cs =>
    if c = '/' then [] :: splitSeg cs
    else
      match splitSeg cs with
      | [] => [[c]]
      | s :: rest => (c :: s) :: rest

/-- Path segments of a string. -/
def segsOf (s : String) : List (List Char) := splitSeg s.data

/-- Model of Node `path.isAbsolute` (POSIX): the path starts with `/`. -/
def isAbsolute (s : String) : Bool :=
  match s.data with
  | [] => false
  | c :: _ => c == '/'

/-- Model of Node `path.basename`: the final path segment. -/
def basename (s : String) : String :=
  String.mk ((segsOf s).getLastD [])

/-- Splits a file name at its last dot: `lastDotSplit name = some (stem, ext)`
when `name = stem ++ "." ++ ext` with `ext` dot-free; `none` when the name has
no dot. -/
def lastDotSplit : List Char → Option (List Char × List Char)
  | [] => none
  | c :: cs =>
    match lastDotSplit cs with
    | some (a, b) => some (c :: a, b)
    | none => if c = '.' then some ([], cs) else none

/-- Model of Node `path.extname`: the extension of the final segment, with the
dot, or `""`; a dot in the leading position does not count (`.bashrc` has
extension `""`). -/
def extname (s : String) : String :=
  let name := (segsOf s).getLastD []
  match lastDotSplit name with
  | some (stem, ext) => if stem = [] then "" else String.mk ('.' :: ext)
  | none => ""

/-- Model of Node `path.parse(s).name`: final segment without its extension. -/
def parseName (s : String) : String :=
  let name := (segsOf s).getLastD []
  match lastDotSplit name with
  | some (stem, _) => if stem = [] then String.mk name else String.mk stem
  | none => String.mk name

/-- Model of Node `path.parse(s).ext`: same semantics as `extname`. -/
def parseExt (s : String) : String := extname s

/-- Model of Node `path.dirname`: everything before the final segment, `"."`
when there is no separator, `"/"` for a root-level path. -/
def dirname (s : String) : String :=
  match segsOf s with
  | [] => "."
  | [_] => if isAbsolute s then "/" else "."
  | parts =>
    let front := parts.dropLast
    if front = [[]] then "/" else String.mk (List.intercalate ['/'] front)

/-- Model of Node `path.join` on the fragment the tool exercises: segments are
concatenated, empty and `.` segments are dropped, and the result is absolute
exactly when the first argument is.  (The tool never joins `..` segments that
would need collapsing.) -/
def joinPath (a b : String) : String :=
  let segs := (segsOf a ++ segsOf b).filter (fun l => l ≠ [] ∧ l ≠ ['.'])
  let core := List.intercalate ['/'] segs
  if isAbsolute a then String.mk ('/' :: core) else String.mk core

/-- Model of JavaScript `String.prototype.includes('node_modules')` on a
character list. -/
def hasNodeModulesChars : List Char → Bool
  | [] => "node_modules".data.isPrefixOf []
  | c :: cs => "node_modules".data.isPrefixOf (c :: cs) || hasNodeModulesChars cs

/-- Whether a path contains the substring `node_modules`. -/
def hasNodeModules (s : String) : Bool := hasNodeModulesChars s.data

/-! ## ModuleRegistry

Both variants keep a plain JavaScript object keyed by resolved path
(`analyzedModules : Record<FilePath, ModuleData>` in the directory-scan
variant, `suspiciousModules : Record<FilePath, SuspiciousModule>` in the
entry-seeded variant); string-keyed objects preserve insertion order, so the
registry is modelled as an insertion-ordered association list. -/

/-- The per-module record: `class ModuleData` / `interface SuspiciousModule`
(`hasDefaultExport: boolean`, `callers: FilePath[]`). -/
structure ModuleData where
  hasDefaultExport : Bool
  callers : List String
deriving DecidableEq, Repr

/-- Field initializers of `class ModuleData`: `hasDefaultExport = false`,
`callers = []`. -/
def ModuleData.init : ModuleData := ⟨false, []⟩

/-- The registry object, insertion-ordered. -/
abbrev Registry := List (String × ModuleData)

/-- Property read `obj[key]` on the registry object. -/
def lookupReg (reg : Registry) (key : String) : Option ModuleData :=
  (reg.find? (fun kv => kv.1 == key)).map (fun kv => kv.2)

/-- In-place mutation of the record stored at `key` (a no-op when absent).
JavaScript object keys are unique, so rewriting the first occurrence is
exact. -/
def updateReg : Registry → String → (ModuleData → ModuleData) → Registry
  | [], _, _ => []
  | kv :: rest, key, f =>
    if kv.1 == key then (kv.1, f kv.2) :: rest
    else kv :: updateReg rest key f

/-- Property write `obj[key] = value`, creating the key at the end of the
insertion order when absent. -/
def insertReg (reg : Registry) (key : String) (value : ModuleData) : Registry :=
  if (lookupReg reg key).isSome then updateReg reg key (fun _ => value)
  else reg ++ [(key, value)]

/-- The registry-update body shared verbatim by both variants'
`suspectModule` (src/index.ts lines 174-183 and 497-504): push the caller
onto an existing record's list, or create the record with
`hasDefaultExport: false` and a singleton caller list. -/
def suspectRecord (reg : Registry) (resolvedPath caller : String) : Registry :=
  if (lookupReg reg resolvedPath).isSome then
    updateReg reg resolvedPath (fun d => { d with callers := d.callers ++ [caller] })
  else
    reg ++ [(resolvedPath, ⟨false, [caller]⟩)]

/-- Entry-seeded variant's `markSuspiciousModule` (src/index.ts lines
485-489): sets `hasDefaultExport` to `true` when a record for the path
already exists; otherwise the `if` has no `else` branch and nothing happens. -/
def markSuspiciousModule (reg : Registry) (filePath : String) : Registry :=
  if (lookupReg reg filePath).isSome then
    updateReg reg filePath (fun d => { d with hasDefaultExport := true })
  else reg

/-- The directory-scan variant's `suspectModule` caller reference
(src/index.ts lines 170-172): `[parent, location.line, location.column]`
joined with `:` when a source location is available, the bare parent path
otherwise. -/
def fullParentPath (parent : String) (location : Option (Nat × Nat)) : String :=
  match location with
  | some lc => parent ++ ":" ++ toString lc.1 ++ ":" ++ toString lc.2
  | none => parent

/-- The directory-scan variant's `analyze` as it affects the record of the
visited path itself (src/index.ts lines 92-97 and 136-138): if a record for
the path already exists the visit returns immediately; otherwise a fresh
`ModuleData` is stored and the `ExportDefaultDeclaration` visitor sets
`hasDefaultExport` when the file declares a default export.  (The visit's
`require`-call handling touches only other paths' records and is embedded
separately via `suspectRecord`.) -/
def dsVisitRecord (reg : Registry) (filePath : String)
    (declaresDefaultExport : Bool) : Registry :=
  if (lookupReg reg filePath).isSome then reg
  else
    let reg1 := reg ++ [(filePath, ModuleData.init)]
    if declaresDefaultExport then
      updateReg reg1 filePath (fun d => { d with hasDefaultExport := true })
    else reg1

/-! ## The `require`-call visitor

Both variants run the identical checks in their `CallExpression` visitor
(src/index.ts lines 113-134 and 453-475).  The visitor looks at the callee
name, at the node's `container` (reading `container.id?.type` and
`container.property?.name`), and then reads `.value` off the first argument
node with no check of the argument's node kind. -/

/-- The fields of the AST `container` the visitor reads:
`(container as FunctionDeclaration).id?.type` and
`(container as MemberExpression).property as Identifier)?.name`. -/
structure Container where
  idType : Option String
  propertyName : Option String
deriving DecidableEq, Repr

/-- The first argument node of the call.  `stringLit` is a Babel
`StringLiteral` (whose `.value` is the string); `otherNode` stands for any
other node kind (identifier, template literal, ...), whose `.value` read
yields no string — modelled as `none` (JavaScript `undefined`). -/
inductive ArgNode where
  | stringLit (value : String)
  | otherNode
deriving DecidableEq, Repr

/-- The JavaScript read `node.arguments[0].value` as the visitor performs it. -/
def argValue : ArgNode → Option String
  | ArgNode.stringLit s => some s
  | ArgNode.otherNode => none

/-- The shared `CallExpression` visitor filter: returns `none` when the
visitor returns early (not a `require` call, not a plain variable
declaration, or the container selects a property), and `some v` when the
call proceeds to `safePushToQueue`/`suspectModule` with specifier value `v`
(`v = none` models `undefined` for a non-string-literal argument, which the
code does not filter out). -/
def requireCandidate (calleeName : String) (container : Container)
    (arg : ArgNode) : Option (Option String) :=
  let isRequireStatement := calleeName == "require"
  let isPlainVarDeclaration := container.idType == some "Identifier"
  if !isRequireStatement || !isPlainVarDeclaration then none
  else
    -- `if (property) return;` — JavaScript truthiness of the optional name
    if (match container.propertyName with | some n => n != "" | none => false) then none
    else some (argValue arg)

/-- The `container` of the `CallExpression` in `const x = require('m')`: a
`VariableDeclarator` whose `id` is an `Identifier` and which has no
`property` field. -/
def plainVarContainer : Container := ⟨some "Identifier", none⟩

/-- The `container` of the `CallExpression` in `const x =
require('m').default`: the enclosing `MemberExpression`, which has no `id`
field and whose `property` is the identifier `default`. -/
def memberDefaultContainer : Container := ⟨none, some "default"⟩

/-! ## Filesystem collaborator and the resolution pipeline -/

/-- The filesystem/runtime collaborators consumed by resolution:
`fs.readdirSync` (`none` models a thrown error), `require.resolve` with an
optional `paths` list (`[]` models the call without a `paths` option;
`none` models a resolution failure), and `fs.existsSync`. -/
structure FSModel where
  dirEntries : String → Option (List String)
  resolveModule : String → List String → Option String
  pathExists : String → Bool

/-- Run-terminating outcomes: `unresolvable` is the
`"Couldn't resolve path to module"` message followed by `process.exit(1)`
(the required-by part is printed only when the parent string is nonempty);
`rootMissing` is the `"Couldn't find root directory"` message followed by
`process.exit(1)`; `readOrParseError` is the error thrown for an unreadable
or unparseable file; `jsTypeError` is an uncaught TypeError thrown by a
Node primitive applied to `undefined`. -/
inductive Fatal where
  | unresolvable (specifier : String) (requiredBy : Option String) (exitCode : Nat)
  | rootMissing (root : String) (exitCode : Nat)
  | readOrParseError (path : String)
  | jsTypeError (context : String)
deriving DecidableEq, Repr

/-- `getFullPath` (identical in both variants; src/index.ts lines 294-300 and
624-633): absolute paths pass through; otherwise the path is joined onto the
parent (or the parent's directory when the parent has an extension).  The
source's default `parent = this.root` is made explicit at call sites. -/
def getFullPath (filePath parent : String) : String :=
  if isAbsolute filePath then filePath
  else joinPath (if extname parent ≠ "" then dirname parent else parent) filePath

/-- `normalizeFilePath` (identical in both variants): prefixes the
current-directory marker unless the path already starts with `./`, `../`, or
is absolute. -/
def normalizeFilePath (filePath : String) : String :=
  match filePath.data with
  | '.' :: '/' :: _ => filePath
  | '.' :: '.' :: '/' :: _ => filePath
  | '/' :: _ => filePath
  | _ => String.mk ('.' :: '/' :: filePath.data)

/-- `replaceAlias` (identical in both variants apart from the root source):
a specifier whose first segment is `.` or `..` is never aliased; a first
segment matching an alias key is replaced and the result joined under the
project root; otherwise the specifier is unchanged. -/
def replaceAlias (aliasTable : List (String × String)) (root filePath : String) : String :=
  let parts := (segsOf filePath).map String.mk
  let firstSegment := parts.headD ""
  if firstSegment = "." ∨ firstSegment = ".." then filePath
  else
    match aliasTable.find? (fun kv => kv.1 == firstSegment) with
    | some kv => joinPath root (String.intercalate "/" (kv.2 :: parts.tail))
    | none => filePath

/-- The `paths` option `res` hands to `require.resolve` (src/index.ts lines
269-278 and 599-608): empty for an absolute path; otherwise the full path of
the parent's directory (the parent itself when it has no extension),
expanded against the project root. -/
def resPaths (root filePath parent : String) : List String :=
  if isAbsolute filePath then []
  else
    let dirName := if extname parent ≠ "" then dirname parent else parent
    [getFullPath dirName root]

/-- `res` (identical in both variants): delegate to `require.resolve`; on
failure print the offending specifier (and the referencing file, when the
parent string is nonempty) and `process.exit(1)`.  The source's default
`parent = ''` is made explicit at call sites. -/
def res (fs : FSModel) (root filePath parent : String) : Except Fatal String :=
  match fs.resolveModule filePath (resPaths root filePath parent) with
  | some p => Except.ok p
  | none =>
    Except.error (Fatal.unresolvable filePath
      (if parent = "" then none else some parent) 1)

/-- `resolveWithExtension` (identical in both variants): a specifier that
already has an extension resolves directly; otherwise the parent directory
is listed for a sibling with the same stem and a nonempty extension, then
the candidate is treated as a directory and probed for an `index` file, and
finally the original specifier falls through to direct resolution.  Each
listing failure is caught and falls through to the next step.  `parent` is
the optional referencing file; `getFullPath` defaults it to the root and
`res` to the empty string, as in the source. -/
def resolveWithExtension (fs : FSModel) (root filePath : String)
    (parent : Option String) : Except Fatal String :=
  let fullPath := getFullPath filePath (parent.getD root)
  if extname filePath ≠ "" then res fs root filePath (parent.getD "")
  else
    let fileWithExtension : Option String :=
      match fs.dirEntries (dirname fullPath) with
      | none => none
      | some files =>
        files.find? (fun file =>
          parseName file == basename fullPath ∧ parseExt file ≠ "")
    match fileWithExtension with
    | some file =>
      res fs root (normalizeFilePath (joinPath (dirname fullPath) file)) (parent.getD "")
    | none =>
      let indexFile : Option String :=
        match fs.dirEntries fullPath with
        | none => none
        | some files =>
          files.find? (fun file => parseName file == "index" ∧ parseExt file ≠ "")
      match indexFile with
      | some file =>
        res fs root (normalizeFilePath (joinPath filePath file)) (parent.getD "")
      | none => res fs root filePath (parent.getD "")

/-- The directory-scan variant's `resolveFilePath` (src/index.ts lines
186-194): an absolute specifier is returned as-is; otherwise alias
replacement followed by extension resolution. -/
def dsResolveFilePath (fs : FSModel) (aliasTable : List (String × String))
    (root filePath parent : String) : Except Fatal String :=
  if isAbsolute filePath then Except.ok filePath
  else resolveWithExtension fs root (replaceAlias aliasTable root filePath) (some parent)

/-- The entry-seeded variant's `resolveFilePath` (src/index.ts lines
520-524): alias replacement followed by extension resolution, with no
special case for absolute specifiers. -/
def esResolveFilePath (fs : FSModel) (aliasTable : List (String × String))
    (root filePath : String) (parent : Option String) : Except Fatal String :=
  resolveWithExtension fs root (replaceAlias aliasTable root filePath) parent

/-! ## Entry-seeded analyzer: queue items, scheduling, drain loop -/

/-- The entry-seeded variant's `QueueItem`: a specifier plus the optional
referencing file (absent for seeded entries). -/
structure QueueItem where
  filePath : String
  parent : Option String
deriving DecidableEq, Repr

/-- `PARSEABLE_EXTENSIONS = new Set(['.ts', '.js', '.jsx'])`. -/
def PARSEABLE_EXTENSIONS : List String := [".ts", ".js", ".jsx"]

/-- `safePushToQueue` (src/index.ts lines 507-518): skip when the item's
specifier has a nonempty extension outside the parseable set, or when the
item's parent path contains `node_modules`; otherwise append to the queue. -/
def safePushToQueue (queue : List QueueItem) (queueItem : QueueItem) : List QueueItem :=
  let extension := extname queueItem.filePath
  if (extension != "" && !(PARSEABLE_EXTENSIONS.contains extension)) ||
      (match queueItem.parent with | some p => hasNodeModules p | none => false) then
    queue
  else queue ++ [queueItem]

/-- The syntax-tree summary of one source file, as the entry-seeded
variant's single-pass `traverse` encounters its nodes, in source order. -/
inductive ESNode where
  | importDecl (specifier : String)
  | callExpr (calleeName : String) (container : Container) (arg : ArgNode)
  | exportDefaultDecl
deriving DecidableEq, Repr

/-- A parsed source file. -/
structure SourceFile where
  nodes : List ESNode
deriving DecidableEq, Repr

/-- The world an entry-seeded run executes against: the filesystem
collaborators, the configured alias table and root, and the parseable
content of each on-disk file (a path absent from `files` models a file whose
read or parse throws). -/
structure World where
  fs : FSModel
  aliasTable : List (String × String)
  root : String
  files : List (String × SourceFile)

/-- The entry-seeded analyzer's mutable state: the work queue, the
`analyzedModules` visited set, and the `suspiciousModules` registry. -/
structure ESState where
  queue : List QueueItem
  analyzedModules : List String
  suspiciousModules : Registry
deriving DecidableEq, Repr

/-- Dispatch of one visited AST node inside the entry-seeded `analyze`
(src/index.ts lines 446-480): an import declaration is pushed; a
qualifying `require` call is pushed and then recorded via `suspectModule`
(which re-resolves the specifier and can exit the run); a default-export
declaration calls `markSuspiciousModule`.  A qualifying `require` whose
argument carries no string value reaches `path.extname(undefined)` inside
`safePushToQueue` and throws. -/
def esHandleNode (w : World) (resolvedPath : String) (st : ESState)
    (node : ESNode) : Except Fatal ESState :=
  match node with
  | ESNode.importDecl specifier =>
    Except.ok { st with queue := safePushToQueue st.queue ⟨specifier, some resolvedPath⟩ }
  | ESNode.callExpr calleeName container arg =>
    match requireCandidate calleeName container arg with
    | none => Except.ok st
    | some none => Except.error (Fatal.jsTypeError "path.extname(undefined)")
    | some (some modulePath) =>
      let queue := safePushToQueue st.queue ⟨modulePath, some resolvedPath⟩
      match esResolveFilePath w.fs w.aliasTable w.root modulePath (some resolvedPath) with
      | Except.error e => Except.error e
      | Except.ok r =>
        Except.ok { st with queue := queue,
                            suspiciousModules := suspectRecord st.suspiciousModules r resolvedPath }
  | ESNode.exportDefaultDecl =>
    Except.ok { st with suspiciousModules := markSuspiciousModule st.suspiciousModules resolvedPath }

/-- The entry-seeded `analyze` (src/index.ts lines 427-483): resolve the
item, return when already analyzed or not parseable, read and traverse the
file, then add the resolved path to `analyzedModules`. -/
def esAnalyze (w : World) (st : ESState) (item : QueueItem) : Except Fatal ESState :=
  match esResolveFilePath w.fs w.aliasTable w.root item.filePath item.parent with
  | Except.error e => Except.error e
  | Except.ok resolvedPath =>
    if st.analyzedModules.contains resolvedPath ∨
        ¬ PARSEABLE_EXTENSIONS.contains (extname resolvedPath) then
      Except.ok st
    else
      match (w.files.find? (fun kv => kv.1 == resolvedPath)).map (fun kv => kv.2) with
      | none => Except.error (Fatal.readOrParseError resolvedPath)
      | some file =>
        match file.nodes.foldlM (esHandleNode w resolvedPath) st with
        | Except.error e => Except.error e
        | Except.ok st' =>
          Except.ok { st' with analyzedModules := st'.analyzedModules ++ [resolvedPath] }

/-- The `execute` drain loop (src/index.ts lines 388-390): pop and analyze
until the queue is empty.  The fuel argument only bounds the recursion;
theorems about a run exhibit fuel large enough that the loop stops because
the queue is empty. -/
def esRun (w : World) : Nat → ESState → Except Fatal ESState
  | 0, st => Except.ok st
  | Nat.succ fuel, st =>
    match st.queue with
    | [] => Except.ok st
    | item :: rest =>
      match esAnalyze w { st with queue := rest } item with
      | Except.error e => Except.error e
      | Except.ok st' => esRun w fuel st'

/-- `validate` of the entry-seeded variant (src/index.ts lines 653-661):
only the configured root directory's existence is checked; a missing root
prints `"Couldn't find root directory"` and exits with status 1. -/
def validate (fs : FSModel) (root : String) : Except Fatal Unit :=
  if fs.pathExists root then Except.ok () else Except.error (Fatal.rootMissing root 1)

/-- The initial queue the entry-seeded constructor builds: one item per
entry, with no parent. -/
def esInit (entries : List String) : ESState :=
  ⟨entries.map (fun e => ⟨e, none⟩), [], []⟩

/-- The entry-seeded constructor (src/index.ts lines 364-383): seed the
queue with the entries, then `validate` (which inspects only the root). -/
def esConstructor (fs : FSModel) (root : String) (entries : List String) :
    Except Fatal ESState :=
  match validate fs root with
  | Except.ok _ => Except.ok (esInit entries)
  | Except.error e => Except.error e

/-! ## The linked-list work queue (src/Queue.ts)

The queue is a singly linked structure of heap-allocated `Node` objects with
`root`/`last` references.  The heap is modelled explicitly: nodes live in an
allocation-ordered store and `next`/`root`/`last` are indices into it, so
the `push`/`pop` bodies below mirror the source's pointer updates one for
one. -/

/-- `class Node<T>`: a value and an optional `next` pointer. -/
structure QNode (T : Type) where
  value : T
  next : Option Nat
deriving DecidableEq, Repr

/-- `class Queue<T>`: the node heap plus the `root` and `last` pointers. -/
structure Queue (T : Type) where
  store : List (QNode T)
  root : Option Nat
  last : Option Nat
deriving DecidableEq, Repr

/-- A freshly constructed queue: no nodes, both pointers unset. -/
def Queue.empty (T : Type) : Queue T := ⟨[], none, none⟩

/-- `push` (src/Queue.ts lines 14-27): allocate a node; if `root` or `last`
is unset, point both at it; otherwise link the previous `last` to it and
advance `last`. -/
def Queue.push {T : Type} (q : Queue T) (item : T) : Queue T :=
  let nodeId := q.store.length
  let store1 := q.store ++ [⟨item, none⟩]
  if q.root.isNone || q.last.isNone then ⟨store1, some nodeId, some nodeId⟩
  else
    match q.last with
    | none => ⟨store1, some nodeId, some nodeId⟩
    | some prevLast =>
      let store2 :=
        match store1[prevLast]? with
        | some nd => store1.set prevLast { nd with next := some nodeId }
        | none => store1
      ⟨store2, q.root, some nodeId⟩

/-- `pop` (src/Queue.ts lines 29-39): `null` on an unset `root`; otherwise
advance `root` to the popped node's `next` and return its value.  (`last` is
left untouched, exactly as in the source.) -/
def Queue.pop {T : Type} (q : Queue T) : Option T × Queue T :=
  match q.root with
  | none => (none, q)
  | some rootId =>
    match q.store[rootId]? with
    | none => (none, q)
    | some nd => (some nd.value, { q with root := nd.next })

/-- `get hasItems` (src/Queue.ts lines 41-43): `!!this.root`. -/
def Queue.hasItems {T : Type} (q : Queue T) : Bool := q.root.isSome

/-- An abstract queue operation, for quantifying over operation sequences. -/
inductive QueueOp (T : Type) where
  | push (item : T)
  | pop
deriving DecidableEq, Repr

/-- Observational run of the linked-list queue: for every operation the
`hasItems` value afterwards, and for every `pop` its returned value
(`none` being the source's `null` empty-marker). -/
def runImpl {T : Type} (q : Queue T) : List (QueueOp T) → List (Option T) × List Bool
  | [] => ([], [])
  | QueueOp.push t :: ops =>
    let q' := q.push t
    let rest := runImpl q' ops
    (rest.1, q'.hasItems :: rest.2)
  | QueueOp.pop :: ops =>
    let r := q.pop
    let rest := runImpl r.2 ops
    (r.1 :: rest.1, r.2.hasItems :: rest.2)

/-- Modelled from the spec: the reference FIFO over a plain list —
`enqueue` appends at the tail, `dequeue` removes at the head (`none` when
empty), emptiness is list emptiness.  Observations mirror `runImpl`. -/
def runSpec {T : Type} (l : List T) : List (QueueOp T) → List (Option T) × List Bool
  | [] => ([], [])
  | QueueOp.push t :: ops =>
    let l' := l ++ [t]
    let rest := runSpec l' ops
    (rest.1, (!l'.isEmpty) :: rest.2)
  | QueueOp.pop :: ops =>
    match l with
    | [] =>
      let rest := runSpec ([] : List T) ops
      (none :: rest.1, false :: rest.2)
    | x :: xs =>
      let rest := runSpec xs ops
      (some x :: rest.1, (!xs.isEmpty) :: rest.2)

/-- The chain predicate for the linked heap: starting at node `i`, following
`next` pointers spells out the values `l` and ends at node `k` (whose `next`
is unset).  Indices increase along the chain, because `next` is only ever
set to a freshly allocated node. -/
inductive Chain {T : Type} (store : List (QNode T)) : Nat → List T → Nat → Prop where
  | single {i : Nat} {v : T} :
      store[i]? = some ⟨v, none⟩ → Chain store i [v] i
  | cons {i j k : Nat} {v : T} {l : List T} :
      store[i]? = some ⟨v, some j⟩ → i < j → Chain store j l k →
      Chain store i (v :: l) k

/-- Representation invariant: the linked-list queue `q` holds exactly the
elements `l`, in order.  An empty queue is one with `root` unset (`last` may
dangle at a stale node, as after a full drain); a nonempty queue has `root`
at the head of a chain ending at the node `last` points to. -/
def Rep {T : Type} (q : Queue T) (l : List T) : Prop :=
  match l with
  | [] => q.root = none
  | _ :: _ =>
    ∃ i k, q.root = some i ∧ q.last = some k ∧ k < q.store.length ∧
      Chain q.store i l k

/-! ## Concrete scenario worlds used by the claims -/

/-- Filesystem for the cycle scenario: directory `/r` holds `a.js` and
`b.js`, and `require.resolve` resolves exactly those two absolute paths. -/
def fsCycle : FSModel where
  dirEntries := fun d => if d = "/r" then some ["a.js", "b.js"] else none
  resolveModule := fun s _ =>
    if s = "/r/a.js" then some "/r/a.js"
    else if s = "/r/b.js" then some "/r/b.js"
    else none
  pathExists := fun p => p = "/r"

/-- `a.js`: `const b = require('./b'); export default ...`. -/
def fileA : SourceFile :=
  ⟨[ESNode.callExpr "require" plainVarContainer (ArgNode.stringLit "./b"),
    ESNode.exportDefaultDecl]⟩

/-- `b.js`: `const a = require('./a'); export default ...`. -/
def fileB : SourceFile :=
  ⟨[ESNode.callExpr "require" plainVarContainer (ArgNode.stringLit "./a"),
    ESNode.exportDefaultDecl]⟩

/-- The cycle world: each of the two files unsafely requires the other and
declares a default export. -/
def worldCycle : World := ⟨fsCycle, [], "/r", [("/r/a.js", fileA), ("/r/b.js", fileB)]⟩

/-- Filesystem for the absolute-specifier scenario: `/r` holds the directory
`lib` (with an `index.ts`) and a file `main.js`. -/
def fsAbs : FSModel where
  dirEntries := fun d =>
    if d = "/r" then some ["lib", "main.js"]
    else if d = "/r/lib" then some ["index.ts"]
    else none
  resolveModule := fun s _ =>
    if s = "/r/lib/index.ts" then some "/r/lib/index.ts" else none
  pathExists := fun _ => true

/-- A filesystem on which nothing resolves, for exercising the failure
path. -/
def fsNone : FSModel where
  dirEntries := fun _ => none
  resolveModule := fun _ _ => none
  pathExists := fun _ => false

/-- A filesystem whose root `/r` exists but on which no specifier resolves:
the world of a run pointed at a nonexistent entry file. -/
def fsEntryGap : FSModel where
  dirEntries := fun _ => none
  resolveModule := fun _ _ => none
  pathExists := fun p => p = "/r"

/-- The world of the entry-gap scenario. -/
def worldEntryGap : World := ⟨fsEntryGap, [], "/r", []⟩

/-! ## Registry lemmas -/

theorem lookupReg_updateReg (reg : Registry) (key : String) (f : ModuleData → ModuleData) :
    lookupReg (updateReg reg key f) key = (lookupReg reg key).map f := by
  induction reg with
  | nil => rfl
  | cons kv rest ih =>
    cases hb : kv.1 == key
    · simpa [lookupReg, updateReg, List.find?_cons, hb] using ih
    · simp [lookupReg, updateReg, List.find?_cons, hb]

theorem updateReg_updateReg (reg : Registry) (key : String)
    (f g : ModuleData → ModuleData) :
    updateReg (updateReg reg key f) key g = updateReg reg key (fun d => g (f d)) := by
  induction reg with
  | nil => rfl
  | cons kv rest ih =>
    cases hb : kv.1 == key
    · simp [updateReg, hb, ih]
    · simp [updateReg, hb]

theorem lookupReg_append (reg₁ reg₂ : Registry) (key : String)
    (h : lookupReg reg₁ key = none) :
    lookupReg (reg₁ ++ reg₂) key = lookupReg reg₂ key := by
  induction reg₁ with
  | nil => rfl
  | cons kv rest ih =>
    by_cases hk : kv.1 = key
    · simp [lookupReg, List.find?_cons, hk] at h
    · have hb : (kv.1 == key) = false := beq_false_of_ne hk
      simp only [lookupReg, List.find?_cons, hb, cond_false, List.cons_append] at *
      exact ih h

/-! ## Claims about the registry discipline (C1, C2, C3) -/

/-- **C1** — Registry merge commutativity.  The claim asserts that recording
an unsafe-require caller before or after the Analyzer visits the file yields
an identical final ModuleRecord with `hasDefaultExport = true`.  The code
refutes it in both variants: in the entry-seeded variant the caller-first
order yields the flag `true` but the visit-first order leaves it `false`
(`markSuspiciousModule` no-ops on an absent record); in the directory-scan
variant the visit-first order yields `true` but the caller-first order
leaves it `false` (the visit's existing-record guard skips the file).  So
the order of discovery changes the final report. -/
theorem registry_merge_not_commutative :
    (markSuspiciousModule (suspectRecord [] "/r/b.js" "/r/a.js") "/r/b.js" =
      [("/r/b.js", ⟨true, ["/r/a.js"]⟩)]) ∧
    (suspectRecord (markSuspiciousModule [] "/r/b.js") "/r/b.js" "/r/a.js" =
      [("/r/b.js", ⟨false, ["/r/a.js"]⟩)]) ∧
    (dsVisitRecord (suspectRecord [] "/r/b.js" "/r/c.js:3:10") "/r/b.js" true =
      [("/r/b.js", ⟨false, ["/r/c.js:3:10"]⟩)]) ∧
    (suspectRecord (dsVisitRecord [] "/r/b.js" true) "/r/b.js" "/r/c.js:3:10" =
      [("/r/b.js", ⟨true, ["/r/c.js:3:10"]⟩)]) := by
  refine ⟨rfl, rfl, rfl, rfl⟩

/-- **C2** — Safe-require exclusion.  A call site `const x =
require('m').default` (the `CallExpression`'s container is the
`MemberExpression` selecting `default`) is rejected by the visitor
regardless of the argument, so no registry entry arises from it; a call
site `const x = require('m')` (container a `VariableDeclarator` with a
plain identifier) passes the filter with specifier `"m"`, and the ensuing
`suspectModule` registry update always leaves the caller in the resolved
module's caller list. -/
theorem safe_require_exclusion (reg : Registry) (resolved caller : String)
    (arg : ArgNode) :
    requireCandidate "require" memberDefaultContainer arg = none ∧
    requireCandidate "require" plainVarContainer (ArgNode.stringLit "m") =
      some (some "m") ∧
    caller ∈ ((lookupReg (suspectRecord reg resolved caller) resolved).map
      ModuleData.callers).getD [] := by
  refine ⟨rfl, rfl, ?_⟩
  by_cases h : (lookupReg reg resolved).isSome
  · obtain ⟨d, hd⟩ := Option.isSome_iff_exists.mp h
    simp [suspectRecord, h, lookupReg_updateReg, hd]
  · have hn : lookupReg reg resolved = none := Option.not_isSome_iff_eq_none.mp h
    rw [suspectRecord, if_neg (by simp [hn]), lookupReg_append _ _ _ hn]
    simp [lookupReg, List.find?_cons]

/-- **C3**, counterexample — the claim says the default-export recording
operation creates the module record when none exists; `markSuspiciousModule`
on an empty registry creates nothing. -/
theorem recordDefaultExport_no_creation :
    markSuspiciousModule ([] : Registry) "/r/b.js" = [] ∧
    lookupReg (markSuspiciousModule ([] : Registry) "/r/b.js") "/r/b.js" = none := by
  exact ⟨rfl, rfl⟩

/-- **C3**, amended — `markSuspiciousModule` is idempotent and, when a
record for the path exists, sets `hasDefaultExport` unconditionally to
`true` preserving the caller list; when no record exists it is a no-op and
does not create the record. -/
theorem recordDefaultExport_contract (reg : Registry) (p : String) :
    markSuspiciousModule (markSuspiciousModule reg p) p = markSuspiciousModule reg p ∧
    (lookupReg reg p = none → markSuspiciousModule reg p = reg) ∧
    (∀ d, lookupReg reg p = some d →
      lookupReg (markSuspiciousModule reg p) p = some ⟨true, d.callers⟩) := by
  refine ⟨?_, ?_, ?_⟩
  · by_cases h : (lookupReg reg p).isSome
    · have h2 : (lookupReg (markSuspiciousModule reg p) p).isSome := by
        simp [markSuspiciousModule, h, lookupReg_updateReg]
      simp only [markSuspiciousModule, if_pos h, if_pos h2, updateReg_updateReg]
      split <;> rfl
    · simp [markSuspiciousModule, h]
  · intro h
    simp [markSuspiciousModule, h]
  · intro d hd
    have h : (lookupReg reg p).isSome := by simp [hd]
    simp [markSuspiciousModule, h, lookupReg_updateReg, hd]

/-- **C3**, witness — browses both branches of the contract at concrete
registries. -/
theorem recordDefaultExport_contract_witness :
    markSuspiciousModule ([] : Registry) "/r/a.js" = [] ∧
    lookupReg (markSuspiciousModule [("/r/b.js", ⟨false, ["/r/c.js"]⟩)] "/r/b.js")
      "/r/b.js" = some ⟨true, ["/r/c.js"]⟩ :=
  ⟨(recordDefaultExport_contract [] "/r/a.js").2.1 rfl,
   (recordDefaultExport_contract [("/r/b.js", ⟨false, ["/r/c.js"]⟩)] "/r/b.js").2.2
     ⟨false, ["/r/c.js"]⟩ rfl⟩

/-! ## C4 — the two-file unsafe-require cycle -/


/-- **C4** — Cycle termination and reporting.  On the two-file cycle the
drain loop does terminate (the queue is empty well within the given fuel,
thanks to the `analyzedModules` guard), but the reporting half of the claim
fails: the entry module `/r/a.js`, although `fileA` declares a default
export, ends with `hasDefaultExport = false` — when it was visited no record
existed yet, and `markSuspiciousModule` creates none — so only `/r/b.js` is
reported (with exactly one caller).  The claim's "reports both modules
exactly once, each with exactly one caller" does not hold. -/
theorem cycle_terminates_but_first_module_unreported :
    esRun worldCycle 10 (esInit ["/r/a.js"]) =
      Except.ok ⟨[], ["/r/a.js", "/r/b.js"],
        [("/r/b.js", ⟨true, ["/r/a.js"]⟩), ("/r/a.js", ⟨false, ["/r/b.js"]⟩)]⟩ ∧
    ESNode.exportDefaultDecl ∈ fileA.nodes ∧
    ESNode.exportDefaultDecl ∈ fileB.nodes := by
  refine ⟨rfl, by decide, by decide⟩

/-! ## C5 — routing of absolute specifiers -/


/-- **C5**, counterexample — for the absolute specifier `/r/lib` the
directory-scan `resolveFilePath` returns the path untouched, although
extension resolution (which the claim says it proceeds to) would resolve
the directory to its `index.ts`. -/
theorem absolute_specifier_returned_untouched :
    dsResolveFilePath fsAbs [] "/r" "/r/lib" "/r/main.js" = Except.ok "/r/lib" ∧
    resolveWithExtension fsAbs "/r" "/r/lib" (some "/r/main.js") =
      Except.ok "/r/lib/index.ts" ∧
    dsResolveFilePath fsAbs [] "/r" "/r/lib" "/r/main.js" ≠
      resolveWithExtension fsAbs "/r" "/r/lib" (some "/r/main.js") := by
  have h1 : dsResolveFilePath fsAbs [] "/r" "/r/lib" "/r/main.js" =
      Except.ok "/r/lib" := rfl
  have h2 : resolveWithExtension fsAbs "/r" "/r/lib" (some "/r/main.js") =
      Except.ok "/r/lib/index.ts" := rfl
  refine ⟨h1, h2, ?_⟩
  rw [h1, h2]
  intro h
  injection h with h'
  exact absurd h' (by decide)

/-- An absolute specifier splits into an empty first segment, so alias
substitution leaves it unchanged whenever the empty string is not an alias
key. -/
theorem replaceAlias_absolute (aliasTable : List (String × String)) (root s : String)
    (h : isAbsolute s = true)
    (hAlias : aliasTable.find? (fun kv => kv.1 == "") = none) :
    replaceAlias aliasTable root s = s := by
  obtain ⟨cs, hdata⟩ : ∃ cs, s.data = '/' :: cs := by
    unfold isAbsolute at h
    match hd : s.data with
    | [] => rw [hd] at h; exact absurd h (by decide)
    | c :: cs =>
      rw [hd] at h
      have : c = '/' := by simpa using h
      exact ⟨cs, by rw [this]⟩
  have hseg : segsOf s = [] :: splitSeg cs := by
    unfold segsOf
    rw [hdata]
    simp [splitSeg]
  have hempty : String.mk [] = "" := rfl
  unfold replaceAlias
  rw [hseg]
  simp only [List.map_cons, List.headD_cons, hempty]
  rw [if_neg (by decide)]
  rw [hAlias]

/-- **C5**, amended — for an absolute specifier the directory-scan
`resolveFilePath` returns the specifier untouched, skipping alias handling,
extension resolution and direct resolution entirely; the entry-seeded
`resolveFilePath` has no such short-circuit and proceeds to extension
resolution (alias substitution being an identity on absolute specifiers as
long as the empty string is not an alias key). -/
theorem absolute_specifier_routing (fs : FSModel) (aliasTable : List (String × String))
    (root filePath parent : String) (h : isAbsolute filePath = true)
    (hAlias : aliasTable.find? (fun kv => kv.1 == "") = none) :
    dsResolveFilePath fs aliasTable root filePath parent = Except.ok filePath ∧
    esResolveFilePath fs aliasTable root filePath (some parent) =
      resolveWithExtension fs root filePath (some parent) := by
  constructor
  · simp [dsResolveFilePath, h]
  · unfold esResolveFilePath
    rw [replaceAlias_absolute aliasTable root filePath h hAlias]

/-- **C5**, witness — the routing theorem applied at the `fsAbs` scenario. -/
theorem absolute_specifier_routing_witness :
    dsResolveFilePath fsAbs [] "/r" "/r/lib" "/r/main.js" = Except.ok "/r/lib" ∧
    esResolveFilePath fsAbs [] "/r" "/r/lib" (some "/r/main.js") =
      resolveWithExtension fsAbs "/r" "/r/lib" (some "/r/main.js") :=
  absolute_specifier_routing fsAbs [] "/r" "/r/lib" "/r/main.js" (by decide) rfl

/-! ## C6 — dynamic `require` arguments -/

/-- **C6** — a `require` call whose argument is not a string literal is
nevertheless treated as a candidate: the visitor's checks look only at the
callee name and the container, so `const a = require(someVar)` passes the
filter with an `undefined` specifier value, and the entry-seeded node
handler then hits `path.extname(undefined)` inside `safePushToQueue` and
throws, instead of skipping the call. -/
theorem dynamic_require_not_filtered (w : World) (resolvedPath : String) (st : ESState) :
    requireCandidate "require" plainVarContainer ArgNode.otherNode = some none ∧
    requireCandidate "require" plainVarContainer ArgNode.otherNode ≠ none ∧
    esHandleNode w resolvedPath st
      (ESNode.callExpr "require" plainVarContainer ArgNode.otherNode) =
      Except.error (Fatal.jsTypeError "path.extname(undefined)") := by
  refine ⟨rfl, by decide, rfl⟩

/-! ## C7 — unresolvable specifiers are fatal -/

/-- Every error `res` produces is the fatal unresolvable-specifier report:
the specifier, the referencing file when one was given, exit status 1. -/
theorem res_error_shape (fs : FSModel) (root filePath parent : String) (e : Fatal)
    (h : res fs root filePath parent = Except.error e) :
    e = Fatal.unresolvable filePath (if parent = "" then none else some parent) 1 := by
  unfold res at h
  cases hr : fs.resolveModule filePath (resPaths root filePath parent) <;> rw [hr] at h
  · exact (Except.error.inj h).symm
  · cases h

/-- Every error escaping `resolveWithExtension` is an unresolvable-specifier
fatal: the soft listing fallbacks never abort, only the final `res` steps
do. -/
theorem resolveWithExtension_error_shape (fs : FSModel) (root filePath : String)
    (parent : Option String) (e : Fatal)
    (h : resolveWithExtension fs root filePath parent = Except.error e) :
    ∃ spec, e = Fatal.unresolvable spec
      (if parent.getD "" = "" then none else some (parent.getD "")) 1 := by
  unfold resolveWithExtension at h
  split at h
  · exact ⟨filePath, res_error_shape _ _ _ _ _ h⟩
  · dsimp only at h
    split at h
    · exact ⟨_, res_error_shape _ _ _ _ _ h⟩
    · split at h
      · exact ⟨_, res_error_shape _ _ _ _ _ h⟩
      · exact ⟨filePath, res_error_shape _ _ _ _ _ h⟩

/-- **C7** — Fatal unresolvable specifier.  When the runtime resolution
primitive fails, `res` aborts with the unresolvable-specifier report (the
offending specifier, the referencing file when present, exit status 1), and
it succeeds exactly on the primitive's successes; moreover every error the
directory-scan `resolveFilePath` pipeline can surface is such a fatal
report — there is no code path on which a failed resolution is silently
skipped. -/
theorem unresolvable_specifier_fatal (fs : FSModel) (aliasTable : List (String × String))
    (root filePath parent : String) :
    (fs.resolveModule filePath (resPaths root filePath parent) = none →
      res fs root filePath parent =
        Except.error (Fatal.unresolvable filePath
          (if parent = "" then none else some parent) 1)) ∧
    (∀ r, res fs root filePath parent = Except.ok r →
      fs.resolveModule filePath (resPaths root filePath parent) = some r) ∧
    (∀ e, dsResolveFilePath fs aliasTable root filePath parent = Except.error e →
      ∃ spec, e = Fatal.unresolvable spec
        (if parent = "" then none else some parent) 1) := by
  refine ⟨?_, ?_, ?_⟩
  · intro h; unfold res; rw [h]
  · intro r h; unfold res at h
    cases hr : fs.resolveModule filePath (resPaths root filePath parent) <;> rw [hr] at h
    · cases h
    · rw [Except.ok.inj h]
  · intro e h
    unfold dsResolveFilePath at h
    split at h
    · cases h
    · have := resolveWithExtension_error_shape _ _ _ _ _ h
      simpa using this


/-- **C7**, witness — the fatal-failure theorem applied at `fsNone`. -/
theorem unresolvable_specifier_fatal_witness :
    res fsNone "/q" "./x.js" "/q/a.js" =
      Except.error (Fatal.unresolvable "./x.js" (some "/q/a.js") 1) ∧
    ∃ spec, Fatal.unresolvable "./x.js" (some "/q/a.js") 1 =
      Fatal.unresolvable spec (some "/q/a.js") 1 := by
  have h := unresolvable_specifier_fatal fsNone [] "/q" "./x.js" "/q/a.js"
  constructor
  · have h1 := h.1 rfl
    rw [if_neg (by decide : ¬("/q/a.js" = ""))] at h1
    exact h1
  · have h3 := h.2.2 (Fatal.unresolvable "./x.js" (some "/q/a.js") 1) rfl
    rw [if_neg (by decide : ¬("/q/a.js" = ""))] at h3
    exact h3

/-! ## C9 — the dependency-install exclusion -/

/-- **C9**, counterexample — an item whose specifier lies inside
`node_modules` but whose referencing file does not is enqueued: the
exclusion never looks at the discovered file's own location. -/
theorem node_modules_item_enqueued :
    safePushToQueue [] ⟨"/r/node_modules/x/index.js", some "/r/src/a.js"⟩ =
      [⟨"/r/node_modules/x/index.js", some "/r/src/a.js"⟩] ∧
    hasNodeModules "/r/node_modules/x/index.js" = true := by
  exact ⟨rfl, by decide⟩

/-- **C9**, amended — `safePushToQueue` filters on the *referencing* file:
an edge is skipped when its parent path contains `node_modules` (or when the
specifier carries a nonempty non-parseable extension); when the parent is
clean and the extension admissible the item is enqueued regardless of where
the discovered file itself lives. -/
theorem safePush_filters_on_parent (queue : List QueueItem) (fp parent : String) :
    (hasNodeModules parent = true → safePushToQueue queue ⟨fp, some parent⟩ = queue) ∧
    (hasNodeModules parent = false →
      (extname fp = "" ∨ PARSEABLE_EXTENSIONS.contains (extname fp) = true) →
      safePushToQueue queue ⟨fp, some parent⟩ = queue ++ [⟨fp, some parent⟩]) := by
  constructor
  · intro h
    simp [safePushToQueue, h]
  · intro h hext
    rcases hext with he | he
    · simp [safePushToQueue, h, he]
    · have hmem : extname fp ∈ PARSEABLE_EXTENSIONS :=
        List.mem_of_elem_eq_true he
      simp [safePushToQueue, h, hmem]

/-- **C9**, witness — the parent-based filter applied at concrete items:
an edge out of `node_modules` is dropped, an edge into `node_modules` is
kept. -/
theorem safePush_filters_on_parent_witness :
    safePushToQueue [] ⟨"./b", some "/r/node_modules/x/index.js"⟩ = [] ∧
    safePushToQueue [] ⟨"/r/node_modules/x/index.js", some "/r/src/a.js"⟩ =
      [⟨"/r/node_modules/x/index.js", some "/r/src/a.js"⟩] :=
  ⟨(safePush_filters_on_parent [] "./b" "/r/node_modules/x/index.js").1 (by decide),
   (safePush_filters_on_parent [] "/r/node_modules/x/index.js" "/r/src/a.js").2
     (by decide) (Or.inr (by decide))⟩

/-! ## C10 — the entry-validation gap -/

/-- **C10** — entry validation gap.  The entry-seeded constructor validates
only the root directory: when the root exists the constructor succeeds for
*any* entry list, and when it does not the failure is the root-missing exit.
An entry that cannot be resolved surfaces later, through the resolution
pipeline, whose every error is the `"Couldn't resolve path to module"`
report with exit status 1 (never a root-validation error), and `analyze`
propagates exactly that error. -/
theorem entry_validation_gap (fs : FSModel) (root : String) (entries : List String)
    (w : World) (entry : String) (st : ESState) :
    (fs.pathExists root = true → esConstructor fs root entries = Except.ok (esInit entries)) ∧
    (fs.pathExists root = false →
      esConstructor fs root entries = Except.error (Fatal.rootMissing root 1)) ∧
    (∀ aliasTable e, esResolveFilePath fs aliasTable root entry none = Except.error e →
      ∃ spec, e = Fatal.unresolvable spec none 1) ∧
    (∀ e, esResolveFilePath w.fs w.aliasTable w.root entry none = Except.error e →
      esAnalyze w st ⟨entry, none⟩ = Except.error e) := by
  refine ⟨?_, ?_, ?_, ?_⟩
  · intro h; simp [esConstructor, validate, h]
  · intro h; simp [esConstructor, validate, h]
  · intro aliasTable e h
    unfold esResolveFilePath at h
    have := resolveWithExtension_error_shape _ _ _ _ _ h
    simpa using this
  · intro e h
    unfold esAnalyze
    rw [h]


/-- **C10**, witness — with root `/r` present and entry `./missing.js`
nonexistent, construction succeeds and analyzing the entry aborts through
the resolution-failure path. -/
theorem entry_validation_gap_witness :
    esConstructor fsEntryGap "/r" ["./missing.js"] =
      Except.ok (esInit ["./missing.js"]) ∧
    (∃ spec, Fatal.unresolvable "./missing.js" none 1 =
      Fatal.unresolvable spec none 1) ∧
    esAnalyze worldEntryGap (esInit ["./missing.js"]) ⟨"./missing.js", none⟩ =
      Except.error (Fatal.unresolvable "./missing.js" none 1) := by
  have h := entry_validation_gap fsEntryGap "/r" ["./missing.js"] worldEntryGap
    "./missing.js" (esInit ["./missing.js"])
  exact ⟨h.1 rfl, h.2.2.1 [] _ rfl, h.2.2.2 _ rfl⟩

/-! ## C8 — the linked-list queue refines the list FIFO -/

theorem chain_ne_nil {T : Type} {store : List (QNode T)} {i k : Nat} :
    ¬ Chain store i [] k := fun h => nomatch h

theorem chain_le {T : Type} {store : List (QNode T)} {i k : Nat} {l : List T}
    (hc : Chain store i l k) : i ≤ k := by
  induction hc with
  | single _ => exact Nat.le_refl _
  | cons _ hij _ ih => exact Nat.le_of_lt (Nat.lt_of_lt_of_le hij ih)

theorem chain_lt_length {T : Type} {store : List (QNode T)} {i k : Nat} {l : List T}
    (hc : Chain store i l k) : i < store.length := by
  cases hc with
  | single h => exact (List.getElem?_eq_some.mp h).1
  | cons h _ _ => exact (List.getElem?_eq_some.mp h).1

theorem chain_last {T : Type} {store : List (QNode T)} {i k : Nat} {l : List T}
    (hc : Chain store i l k) : ∃ v, store[k]? = some ⟨v, none⟩ := by
  induction hc with
  | single h => exact ⟨_, h⟩
  | cons _ _ _ ih => exact ih

/-- Linking a fresh node after the chain's final node extends the
represented list by one element: the core argument behind `push` on a
nonempty queue. -/
theorem chain_extend {T : Type} {store : List (QNode T)} {i k : Nat} {l : List T}
    {v : T} (t : T) (hc : Chain store i l k) :
    store[k]? = some ⟨v, none⟩ →
    Chain ((store ++ [(⟨t, none⟩ : QNode T)]).set k ⟨v, some store.length⟩) i
      (l ++ [t]) store.length := by
  induction hc with
  | single h =>
    intro hk
    have heq := Option.some.inj (h.symm.trans hk)
    injection heq with hval _
    subst hval
    have hik : _ < store.length := (List.getElem?_eq_some.mp h).1
    refine Chain.cons ?_ hik (Chain.single ?_)
    · rw [List.getElem?_set_self (by simpa using Nat.lt_succ_of_lt hik)]
    · rw [List.getElem?_set_ne (Nat.ne_of_lt hik)]
      exact List.getElem?_concat_length _ _
  | cons h hij htail ih =>
    intro hk
    have hik := Nat.lt_of_lt_of_le hij (chain_le htail)
    have hilen : _ < store.length := (List.getElem?_eq_some.mp h).1
    refine Chain.cons ?_ hij (ih hk)
    rw [List.getElem?_set_ne (Nat.ne_of_lt hik).symm]
    rw [List.getElem?_append_left hilen]
    exact h

theorem Rep.hasItems_eq {T : Type} {q : Queue T} {l : List T} (h : Rep q l) :
    q.hasItems = !l.isEmpty := by
  cases l with
  | nil =>
    have hroot : q.root = none := h
    simp [Queue.hasItems, hroot]
  | cons v l' =>
    obtain ⟨i, _, hroot, _⟩ := h
    simp [Queue.hasItems, hroot]

theorem Rep.push_rep {T : Type} {q : Queue T} {l : List T} (h : Rep q l) (t : T) :
    Rep (q.push t) (l ++ [t]) := by
  cases l with
  | nil =>
    have hroot : q.root = none := h
    have hpush : q.push t =
        ⟨q.store ++ [(⟨t, none⟩ : QNode T)], some q.store.length, some q.store.length⟩ := by
      unfold Queue.push
      rw [hroot]
      rfl
    rw [hpush]
    exact ⟨q.store.length, q.store.length, rfl, rfl, by simp,
      Chain.single (List.getElem?_concat_length _ _)⟩
  | cons v l' =>
    obtain ⟨i, k, hroot, hlast, hklen, hchain⟩ := h
    obtain ⟨vl, hk⟩ := chain_last hchain
    have hk1 : (q.store ++ [(⟨t, none⟩ : QNode T)])[k]? = some ⟨vl, none⟩ := by
      rw [List.getElem?_append_left hklen]; exact hk
    have hpush : q.push t =
        ⟨(q.store ++ [(⟨t, none⟩ : QNode T)]).set k ⟨vl, some q.store.length⟩,
          some i, some q.store.length⟩ := by
      simp only [Queue.push, hroot, hlast, Option.isNone_some, Bool.or_self,
        Bool.false_eq_true, if_false, hk1]
    rw [hpush]
    refine ⟨i, q.store.length, rfl, rfl, ?_, ?_⟩
    · simp
    · exact chain_extend t hchain hk

theorem Rep.pop_nil {T : Type} {q : Queue T} (h : Rep q []) : q.pop = (none, q) := by
  have hroot : q.root = none := h
  unfold Queue.pop
  rw [hroot]

theorem Rep.pop_cons {T : Type} {q : Queue T} {v : T} {l' : List T}
    (h : Rep q (v :: l')) :
    ∃ q', q.pop = (some v, q') ∧ Rep q' l' := by
  obtain ⟨i, k, hroot, hlast, hklen, hchain⟩ := h
  cases hchain with
  | single hi =>
    refine ⟨{ q with root := none }, ?_, ?_⟩
    · simp only [Queue.pop, hroot, hi]
    · exact rfl
  | @cons _ j _ _ _ hi hij htail =>
    refine ⟨{ q with root := some j }, ?_, ?_⟩
    · simp only [Queue.pop, hroot, hi]
    · cases l' with
      | nil => exact absurd htail chain_ne_nil
      | cons x xs => exact ⟨j, k, rfl, hlast, hklen, htail⟩

/-- Simulation: from any pair of related states, the linked-list queue and
the list FIFO produce identical observation traces. -/
theorem runImpl_eq_runSpec {T : Type} (ops : List (QueueOp T)) :
    ∀ (q : Queue T) (l : List T), Rep q l → runImpl q ops = runSpec l ops := by
  induction ops with
  | nil => intro q l _; rfl
  | cons op ops ih =>
    intro q l hRep
    cases op with
    | push t =>
      have hstep := Rep.push_rep hRep t
      simp only [runImpl, runSpec]
      rw [ih _ _ hstep, Rep.hasItems_eq hstep]
    | pop =>
      cases l with
      | nil =>
        have hroot : q.root = none := hRep
        simp only [runImpl, runSpec, Rep.pop_nil hRep]
        rw [ih _ _ hRep]
        simp [Queue.hasItems, hroot]
      | cons v l' =>
        obtain ⟨q', hpop, hrep'⟩ := Rep.pop_cons hRep
        simp only [runImpl, runSpec, hpop]
        rw [ih _ _ hrep', Rep.hasItems_eq hrep']

/-- **C8** — WorkQueue FIFO contract.  For every sequence of push and pop
operations, starting from a freshly constructed queue, the linked-list
implementation is observationally equal to the reference list-model FIFO:
each pop returns exactly what the list model's dequeue returns (items in
push order, the `null` marker on empty), and after every operation
`hasItems` is `true` exactly when the list model is nonempty — including
sequences that fully drain the queue (leaving the stale `last` pointer
behind) and push again. -/
theorem queue_refines_fifo (T : Type) (ops : List (QueueOp T)) :
    runImpl (Queue.empty T) ops = runSpec [] ops :=
  runImpl_eq_runSpec ops (Queue.empty T) [] rfl

end AnalyzeRequireDefault
